import Mathlib

/-!
# Media transfer service: key derivation and transfer orchestration

A shallow embedding of `internal/service/media_transfer.go` and of the request
handler in `app/controller/media_transfer.go`.

Go strings are modelled as lists of characters. Every pattern the code searches
for (`/`, `?`, `.` and the ten media types) is ASCII, so on well-formed UTF-8 an
index counted in characters cuts at the same place as Go's index counted in
bytes. The standard library's `url.Parse`, `http.NewRequest`, `http.Client.Do`
and the storage SDK's `Bucket.PutObject` are not part of the repository: they are
taken as parameters, and every theorem holds for whatever they return.
-/

namespace Transfer

/-- Go `string`, as its sequence of characters. -/
abbrev Str := List Char

/-! ## The `strings` functions the service uses -/

/-- `strings.HasPrefix(s, p)`. -/
def stringsHasPrefix (s p : Str) : Bool :=
  match p, s with
  | [], _ => true
  | _ :: _, [] => false
  | a :: p', b :: s' => a == b && stringsHasPrefix s' p'

/-- `strings.Index(s, sub)`: the position of the first occurrence of `sub` in `s`, or `-1`. -/
def stringsIndex (s sub : Str) : Int :=
  if stringsHasPrefix s sub then 0
  else
    match s with
    | [] => -1
    | _ :: cs =>
      let r := stringsIndex cs sub
      if r = -1 then -1 else r + 1

/-- `strings.LastIndex(s, sub)`: the position of the last occurrence of `sub` in `s`, or `-1`. -/
def stringsLastIndex (s sub : Str) : Int :=
  match s with
  | [] => if stringsHasPrefix [] sub then 0 else -1
  | c :: cs =>
    let r := stringsLastIndex cs sub
    if r ≠ -1 then r + 1
    else if stringsHasPrefix (c :: cs) sub then 0 else -1

/-- `strings.Contains(s, sub)`, which Go defines as `Index(s, sub) >= 0`. -/
def stringsContains (s sub : Str) : Bool :=
  decide (0 ≤ stringsIndex s sub)

/-- `strings.Split(s, sep)` at a separator of one character (the code only splits on `/`). -/
def stringsSplit (s : Str) (sep : Char) : List Str :=
  match s with
  | [] => [[]]
  | c :: cs =>
    if c = sep then [] :: stringsSplit cs sep
    else
      match stringsSplit cs sep with
      | [] => [[c]]
      | p :: ps => (c :: p) :: ps

/-- `unicode.IsSpace`: the characters `strings.TrimSpace` removes. -/
def unicodeIsSpace (c : Char) : Bool :=
  let n := c.toNat
  (0x09 ≤ n && n ≤ 0x0D) || n == 0x20 || n == 0x85 || n == 0xA0 || n == 0x1680 ||
  (0x2000 ≤ n && n ≤ 0x200A) || n == 0x2028 || n == 0x2029 || n == 0x202F ||
  n == 0x205F || n == 0x3000

/-- `strings.TrimSpace(s)`: `s` without its leading and trailing white space. -/
def stringsTrimSpace (s : Str) : Str :=
  ((s.dropWhile unicodeIsSpace).reverse.dropWhile unicodeIsSpace).reverse

/-! ## Checked indexing and slicing

Go panics on an index or a slice bound out of range; the model returns `none`. -/

/-- The element `xs[i]`, `none` where Go would panic. -/
def goIndex {α : Type} (xs : List α) (i : Int) : Option α :=
  if 0 ≤ i then xs[i.toNat]? else none

/-- The slice `s[:i]`, `none` where Go would panic. -/
def goSliceTo (s : Str) (i : Int) : Option Str :=
  if 0 ≤ i ∧ i ≤ (s.length : Int) then some (s.take i.toNat) else none

/-! ## Data -/

deriving instance DecidableEq for Except

/-- An error value: one raised by a library, the status error `download` builds, or an
error wrapped by `fmt.Errorf("<context>: %w", cause)`. -/
inductive GoError where
  | lib (msg : Str)
  | status (code : Int)
  | wrap (context : Str) (cause : GoError)
  deriving DecidableEq, Repr

/-- The fields of `url.URL` the code reads. -/
structure URL where
  Scheme : Str
  Path : Str
  deriving DecidableEq, Repr

/-! ## Key derivation -/

/-- `MediaTransferService.getExtensionFromContentType`. -/
def getExtensionFromContentType (contentType : Str) : Str :=
  if stringsContains contentType "image/jpeg".toList then ".jpg".toList
  else if stringsContains contentType "image/png".toList then ".png".toList
  else if stringsContains contentType "image/gif".toList then ".gif".toList
  else if stringsContains contentType "image/webp".toList then ".webp".toList
  else if stringsContains contentType "video/mp4".toList then ".mp4".toList
  else if stringsContains contentType "video/avi".toList then ".avi".toList
  else if stringsContains contentType "video/mov".toList then ".mov".toList
  else if stringsContains contentType "audio/mp3".toList then ".mp3".toList
  else if stringsContains contentType "audio/wav".toList then ".wav".toList
  else if stringsContains contentType "audio/aac".toList then ".aac".toList
  else []

/-- `MediaTransferService.generateObjectKey`, with `url.Parse` as the parameter `parse`.
The result is `none` exactly where the Go function would panic on an index or slice. -/
def generateObjectKey (parse : Str → Except GoError URL)
    (originalURL contentType ext predictionUUID : Str) : Option Str := do
  let filename ←
    match parse originalURL with
    | .error _ => do
      let parts := stringsSplit originalURL '/'
      let filename ← goIndex parts ((parts.length : Int) - 1)
      let idx := stringsIndex filename "?".toList
      if idx ≠ -1 then goSliceTo filename idx else pure filename
    | .ok parsedURL => do
      let pathParts := stringsSplit parsedURL.Path '/'
      goIndex pathParts ((pathParts.length : Int) - 1)
  let filename := if filename = [] then "file".toList else filename
  let filename ←
    if ext ≠ [] then do
      let ext := if !stringsHasPrefix ext ".".toList then ".".toList ++ ext else ext
      let dotIndex := stringsLastIndex filename ".".toList
      let filename ← if dotIndex ≠ -1 then goSliceTo filename dotIndex else pure filename
      pure (filename ++ ext)
    else if !stringsContains filename ".".toList then
      let autoExt := getExtensionFromContentType contentType
      pure (if autoExt ≠ [] then filename ++ autoExt else filename)
    else pure filename
  pure ("outputs/".toList ++ predictionUUID ++ "/".toList ++ filename)

/-! ## The outside world

The calls that leave the process are parameters: what each returns is fixed by the
environment, and the order in which the code makes them is recorded as a trace. -/

/-- What the code reads of an `http.Response`. `ContentType` is
`resp.Header.Get("Content-Type")`, empty when the header is absent. The body is the one
stream of the request; a `Close` on it is the step `Event.bodyClose`. -/
structure Response where
  StatusCode : Int
  ContentType : Str
  ContentLength : Int
  deriving DecidableEq, Repr

/-- The environment of one request. -/
structure Env where
  /-- The function `url.Parse`. -/
  parse : Str → Except GoError URL
  /-- The call `http.NewRequest("GET", url, nil)`: its error, if any. -/
  newRequest : Str → Option GoError
  /-- The call `client.Do(req)`. -/
  clientDo : Str → Except GoError Response
  /-- The call `bucket.PutObject(objectKey, reader, options...)`: its error, if any. -/
  putObject : Str → Str → Option GoError
  /-- How many times that call closes the reader it is handed. The SDK is not among the
  sources: it makes a reader that is an `io.ReadCloser` the body of its HTTP request, and
  `net/http` closes a request body once the request has been sent or has failed. -/
  putObjectCloses : Str → Str → Nat
  /-- The value of `time.Now().Format(time.RFC3339)`. -/
  now : Str
  /-- The field `config.AliyunOSS.Bucket`. -/
  bucket : Str
  /-- The field `config.AliyunOSS.Endpoint`. -/
  endpoint : Str

/-- The observable steps of a request, in the order the code performs them. -/
inductive Event where
  /-- Entry into `download`. -/
  | download (mediaURL : Str)
  /-- The outbound request `client.Do(req)`. -/
  | clientDo (mediaURL : Str)
  /-- A call of `Close` on the response body. -/
  | bodyClose
  /-- A call of `generateObjectKey`. -/
  | generateObjectKey (originalURL contentType ext predictionUUID : Str)
  /-- Entry into `uploadToOSS`. -/
  | uploadToOSS (objectKey contentType : Str)
  /-- The storage write `bucket.PutObject`, which reads the response body. -/
  | putObject (objectKey contentType uploadTime : Str)
  deriving DecidableEq, Repr

/-- The byte stream of a request. There is one: the body of the response, an
`io.ReadCloser`. -/
inductive ByteStream where
  | responseBody
  deriving DecidableEq, Repr

/-- The step a call of `Close` on the stream makes. -/
def ByteStream.close : ByteStream → Event
  | .responseBody => .bodyClose

/-- `DownloadResult`; its `Reader` is the body of the response. -/
structure DownloadResult where
  Reader : ByteStream
  ContentType : Str
  Size : Int
  deriving DecidableEq, Repr

/-- `MediaTransferService.download`: the result and the steps taken. -/
def download (env : Env) (mediaURL : Str) : Except GoError DownloadResult × List Event :=
  let mediaURL' := stringsTrimSpace mediaURL
  match env.parse mediaURL' with
  | .error err => (.error (.wrap "invalid URL format".toList err), [.download mediaURL])
  | .ok _ =>
    match env.newRequest mediaURL' with
    | some err => (.error (.wrap "failed to create request".toList err), [.download mediaURL])
    | none =>
      match env.clientDo mediaURL' with
      | .error err =>
        (.error (.wrap "failed to download file".toList err),
          [.download mediaURL, .clientDo mediaURL'])
      | .ok resp =>
        if resp.StatusCode ≠ 200 then
          (.error (.status resp.StatusCode),
            [.download mediaURL, .clientDo mediaURL', .bodyClose])
        else
          let contentType := resp.ContentType
          let contentType :=
            if contentType = [] then "application/octet-stream".toList else contentType
          (.ok { Reader := .responseBody, ContentType := contentType,
                 Size := resp.ContentLength },
            [.download mediaURL, .clientDo mediaURL'])

/-- `MediaTransferService.uploadToOSS`: the result and the steps taken. `PutObject` is
handed `reader`; the closes it makes on it follow the write. -/
def uploadToOSS (env : Env) (reader : ByteStream) (objectKey contentType : Str) :
    Except GoError Str × List Event :=
  let steps := [Event.uploadToOSS objectKey contentType,
    Event.putObject objectKey contentType env.now] ++
    List.replicate (env.putObjectCloses objectKey contentType) reader.close
  match env.putObject objectKey contentType with
  | some err => (.error (.wrap "failed to upload file".toList err), steps)
  | none =>
    (.ok ("https://".toList ++ env.bucket ++ ".".toList ++ env.endpoint ++ "/".toList ++ objectKey),
      steps)

/-- The values `TransferMedia` returns on success: the public URL, the size, the content type. -/
structure TransferResult where
  ossURL : Str
  size : Int
  contentType : Str
  deriving DecidableEq, Repr

/-- `MediaTransferService.TransferMedia`: the result (`none` for a panic) and the steps
taken. The deferred `result.Reader.Close()` runs last on every path that follows a
successful download. Logging is left out. -/
def TransferMedia (env : Env) (mediaURL ext predictionUUID : Str) :
    Option (Except GoError TransferResult) × List Event :=
  let mediaURL := stringsTrimSpace mediaURL
  match download env mediaURL with
  | (.error err, steps) => (some (.error (.wrap "download failed".toList err)), steps)
  | (.ok result, steps) =>
    let keyStep := Event.generateObjectKey mediaURL result.ContentType ext predictionUUID
    let rest : Option (Except GoError TransferResult) × List Event :=
      match generateObjectKey env.parse mediaURL result.ContentType ext predictionUUID with
      | none => (none, [keyStep])
      | some objectKey =>
        match uploadToOSS env result.Reader objectKey result.ContentType with
        | (.error err, up) =>
          (some (.error (.wrap "upload to OSS failed".toList err)), keyStep :: up)
        | (.ok ossURL, up) =>
          (some (.ok { ossURL := ossURL, size := result.Size,
                       contentType := result.ContentType }), keyStep :: up)
    (rest.1, steps ++ rest.2 ++ [result.Reader.close])

/-! ## The request handler -/

/-- `dto.MediaTransferRequest`. -/
structure MediaTransferRequest where
  URL : Str
  Ext : Str
  PredictionUUID : Str
  deriving DecidableEq, Repr

/-- `dto.MediaTransferResponse`. -/
structure MediaTransferResponse where
  Success : Bool
  Message : Str
  OSSUrl : Str
  OriginalURL : Str
  FileSize : Int
  ContentType : Str
  deriving DecidableEq, Repr

/-- The decimal form `%d` prints. -/
def formatInt : Int → Str
  | .ofNat n => Nat.toDigits 10 n
  | .negSucc n => '-' :: Nat.toDigits 10 (n + 1)

/-- The method `Error()` of an error value. -/
def GoError.message : GoError → Str
  | .lib msg => msg
  | .status code => "download failed with status: ".toList ++ formatInt code
  | .wrap context cause => context ++ ": ".toList ++ cause.message

/-- Modelled from the spec: the package `pkg/resp` is not among the sources. Its
`resp.Fail(ctx, code, message, detail)` and `resp.Success(ctx, data)` are taken to write
the reply they are given, bad-request being HTTP status 400 and internal-error 500. -/
inductive Reply where
  | fail (code : Nat) (message detail : Str)
  | success (data : MediaTransferResponse)
  deriving DecidableEq, Repr

/-- `MediaTransferController.TransferMedia`. `bound` is the outcome of
`ctx.ShouldBindJSON(&req)`; the reply is `none` when the service panics. -/
def controllerTransferMedia (env : Env) (bound : Except GoError MediaTransferRequest) :
    Option Reply × List Event :=
  match bound with
  | .error err => (some (.fail 400 "Invalid request parameters".toList err.message), [])
  | .ok req =>
    let reqURL := stringsTrimSpace req.URL
    if reqURL = [] then (some (.fail 400 "URL cannot be empty".toList []), [])
    else if req.PredictionUUID = [] then
      (some (.fail 400 "PredictionUUID cannot be empty".toList []), [])
    else
      match env.parse reqURL with
      | .error err => (some (.fail 400 "Invalid URL format".toList err.message), [])
      | .ok parsedURL =>
        if parsedURL.Scheme ≠ "http".toList ∧ parsedURL.Scheme ≠ "https".toList then
          (some (.fail 400 "Only HTTP and HTTPS protocols are supported".toList
            ("Unsupported protocol: ".toList ++ parsedURL.Scheme)), [])
        else
          match TransferMedia env reqURL req.Ext req.PredictionUUID with
          | (none, steps) => (none, steps)
          | (some (.error err), steps) =>
            (some (.fail 500 "Media transfer failed".toList err.message), steps)
          | (some (.ok r), steps) =>
            (some (.success
              { Success := true
                Message := "Successfully uploaded file to OSS".toList
                OSSUrl := r.ossURL
                OriginalURL := reqURL
                FileSize := r.size
                ContentType := r.contentType }), steps)

/-! ## The specification's vocabulary for key derivation -/

/-- The last `/`-delimited segment of a path: what follows its last `/`, or all of it. -/
def specLastSegment (path : Str) : Str :=
  (path.reverse.takeWhile (fun c => c != '/')).reverse

/-- The base name: the segment, or the literal `file` when the segment is empty. -/
def specBase (segment : Str) : Str :=
  if segment = [] then "file".toList else segment

/-- The base name with everything from its last `.` onward removed. -/
def specStem (base : Str) : Str :=
  if '.' ∈ base then (base.reverse.dropWhile (fun c => c != '.')).tail.reverse else base

/-- The hint with a leading `.` added when it has none. -/
def specHint (hint : Str) : Str :=
  if hint.head? = some '.' then hint else '.' :: hint

/-- The segments of a path between its `/` characters, in order. -/
def specSegments (path : Str) : List Str :=
  path.splitOn '/'

/-- The last non-empty segment of a path, if it has one. -/
def specLastNonEmptySegment (path : Str) : Option Str :=
  ((specSegments path).filter (fun seg => seg != [])).getLast?

/-- The extension precedence rule: a non-empty hint replaces the extension; otherwise a
base name with a `.` is kept; otherwise the extension inferred from the content type is
appended. -/
def specFilename (base hint contentType : Str) : Str :=
  if hint ≠ [] then specStem base ++ specHint hint
  else if '.' ∈ base then base
  else base ++ getExtensionFromContentType contentType

/-- The content-type → extension lookup table, as the specification lists it. -/
def specTable : List (Str × Str) :=
  [("image/jpeg".toList, ".jpg".toList), ("image/png".toList, ".png".toList),
   ("image/gif".toList, ".gif".toList), ("image/webp".toList, ".webp".toList),
   ("video/mp4".toList, ".mp4".toList), ("video/avi".toList, ".avi".toList),
   ("video/mov".toList, ".mov".toList), ("audio/mp3".toList, ".mp3".toList),
   ("audio/wav".toList, ".wav".toList), ("audio/aac".toList, ".aac".toList)]

/-! ## Sample environments for the worked examples -/

/-- The values `url.Parse` returns on the URLs of the worked examples, an error elsewhere. -/
def sampleParse (s : Str) : Except GoError URL :=
  if s = "https://cdn.example.com/img/photo.jpg?x=1".toList then
    .ok { Scheme := "https".toList, Path := "/img/photo.jpg".toList }
  else if s = "https://cdn.example.com/v/clip".toList then
    .ok { Scheme := "https".toList, Path := "/v/clip".toList }
  else if s = "https://cdn.example.com/a/b.jpg/".toList then
    .ok { Scheme := "https".toList, Path := "/a/b.jpg/".toList }
  else if s = "https://cdn.example.com/dir/".toList then
    .ok { Scheme := "https".toList, Path := "/dir/".toList }
  else if s = "ftp://files.example.com/a.bin".toList then
    .ok { Scheme := "ftp".toList, Path := "/a.bin".toList }
  else .error (.lib "parse error".toList)

/-- An environment for the worked examples: every request is answered by the given
response, the storage write has the given outcome, and it closes the reader it is
handed once, as the SDK does through `net/http`. -/
def sampleEnv (resp : Response) (put : Option GoError) : Env :=
  { parse := sampleParse
    newRequest := fun _ => none
    clientDo := fun _ => .ok resp
    putObject := fun _ _ => put
    putObjectCloses := fun _ _ => 1
    now := "2024-01-01T00:00:00Z".toList
    bucket := "media".toList
    endpoint := "oss.example.com".toList }

/-! ## Lemmas on the string functions -/

theorem stringsHasPrefix_single (s : Str) (c : Char) :
    stringsHasPrefix s [c] = (s.head? == some c) := by
  cases s with
  | nil => simp [stringsHasPrefix]
  | cons b t =>
    simp [stringsHasPrefix]
    constructor <;> intro h <;> exact h.symm

theorem stringsHasPrefix_nil_single (c : Char) : stringsHasPrefix [] [c] = false := by
  simp [stringsHasPrefix]

theorem stringsHasPrefix_cons_single (b c : Char) (t : Str) :
    stringsHasPrefix (b :: t) [c] = (c == b) := by
  simp [stringsHasPrefix]

/-- `strings.Index` answers `-1` or a position within the string. -/
theorem stringsIndex_range (s sub : Str) :
    stringsIndex s sub = -1 ∨ (0 ≤ stringsIndex s sub ∧ stringsIndex s sub ≤ (s.length : Int)) := by
  induction s with
  | nil =>
    unfold stringsIndex
    split <;> simp
  | cons c cs ih =>
    unfold stringsIndex
    split
    · right; simp; omega
    · simp only []
      split
      · left; rfl
      · right
        rcases ih with h | ⟨h1, h2⟩
        · contradiction
        · simp only [List.length_cons, Nat.cast_add, Nat.cast_one]; omega

theorem stringsIndex_single_not_mem (s : Str) (c : Char) (h : c ∉ s) :
    stringsIndex s [c] = -1 := by
  induction s with
  | nil => simp [stringsIndex, stringsHasPrefix]
  | cons b t ih =>
    have hb : c ≠ b := fun e => h (by simp [e])
    have ht : c ∉ t := fun e => h (by simp [e])
    unfold stringsIndex
    rw [stringsHasPrefix_cons_single]
    simp [hb, ih ht]

theorem stringsIndex_single_mem (s : Str) (c : Char) (h : c ∈ s) :
    0 ≤ stringsIndex s [c] := by
  induction s with
  | nil => simp at h
  | cons b t ih =>
    unfold stringsIndex
    rw [stringsHasPrefix_cons_single]
    by_cases hb : c = b
    · simp [hb]
    · have ht : c ∈ t := by
        rcases List.mem_cons.mp h with e | e
        · exact absurd e hb
        · exact e
      have := ih ht
      simp only [beq_iff_eq, hb, if_false]
      split <;> omega

theorem stringsContains_single (s : Str) (c : Char) :
    stringsContains s [c] = decide (c ∈ s) := by
  unfold stringsContains
  by_cases h : c ∈ s
  · simp [h, stringsIndex_single_mem s c h]
  · simp [h, stringsIndex_single_not_mem s c h]

theorem stringsLastIndex_single_not_mem (s : Str) (c : Char) (h : c ∉ s) :
    stringsLastIndex s [c] = -1 := by
  induction s with
  | nil => simp [stringsLastIndex, stringsHasPrefix]
  | cons b t ih =>
    have hb : c ≠ b := fun e => h (by simp [e])
    have ht : c ∉ t := fun e => h (by simp [e])
    unfold stringsLastIndex
    rw [stringsHasPrefix_cons_single]
    simp [hb, ih ht]

/-- A string that contains `c` splits at the last `c`. -/
theorem exists_last_occurrence (s : Str) (c : Char) (h : c ∈ s) :
    ∃ a b, s = a ++ c :: b ∧ c ∉ b := by
  induction s with
  | nil => simp at h
  | cons x xs ih =>
    by_cases hx : c ∈ xs
    · obtain ⟨a, b, hab, hb⟩ := ih hx
      exact ⟨x :: a, b, by simp [hab], hb⟩
    · have : c = x := by
        rcases List.mem_cons.mp h with e | e
        · exact e
        · exact absurd e hx
      exact ⟨[], xs, by simp [this], hx⟩

theorem stringsLastIndex_append (a b : Str) (c : Char) (hb : c ∉ b) :
    stringsLastIndex (a ++ c :: b) [c] = (a.length : Int) := by
  induction a with
  | nil =>
    simp only [List.nil_append, List.length_nil, Nat.cast_zero]
    unfold stringsLastIndex
    rw [stringsHasPrefix_cons_single, stringsLastIndex_single_not_mem b c hb]
    simp
  | cons x xs ih =>
    simp only [List.cons_append, List.length_cons, Nat.cast_add, Nat.cast_one]
    unfold stringsLastIndex
    simp only [ih]
    have : ((xs.length : Int)) ≠ -1 := by omega
    simp [this]

theorem takeWhile_append_stop {α : Type} (p : α → Bool) (l r : List α) (x : α)
    (hl : ∀ y ∈ l, p y = true) (hx : p x = false) :
    (l ++ x :: r).takeWhile p = l := by
  induction l with
  | nil => simp [List.takeWhile, hx]
  | cons y ys ih =>
    have hy : p y = true := hl y (by simp)
    simp only [List.cons_append, List.takeWhile_cons, hy, if_true]
    rw [ih (fun z hz => hl z (by simp [hz]))]

theorem dropWhile_append_stop {α : Type} (p : α → Bool) (l r : List α) (x : α)
    (hl : ∀ y ∈ l, p y = true) (hx : p x = false) :
    (l ++ x :: r).dropWhile p = x :: r := by
  induction l with
  | nil => simp [List.dropWhile, hx]
  | cons y ys ih =>
    have hy : p y = true := hl y (by simp)
    simp only [List.cons_append, List.dropWhile_cons, hy, if_true]
    exact ih (fun z hz => hl z (by simp [hz]))

theorem takeWhile_all {α : Type} (p : α → Bool) (l : List α) (hl : ∀ y ∈ l, p y = true) :
    l.takeWhile p = l := by
  induction l with
  | nil => rfl
  | cons y ys ih =>
    have hy : p y = true := hl y (by simp)
    simp only [List.takeWhile_cons, hy, if_true]
    rw [ih (fun z hz => hl z (by simp [hz]))]

theorem specStem_append (a b : Str) (hb : '.' ∉ b) :
    specStem (a ++ '.' :: b) = a := by
  unfold specStem
  have hmem : '.' ∈ a ++ '.' :: b := by simp
  rw [if_pos hmem]
  have hrev : (a ++ '.' :: b).reverse = b.reverse ++ '.' :: a.reverse := by simp
  rw [hrev, dropWhile_append_stop]
  · simp
  · intro y hy
    have : y ∈ b := List.mem_reverse.mp hy
    simp only [bne_iff_ne, ne_eq]
    intro e
    exact hb (e ▸ this)
  · simp

theorem specLastSegment_append (a b : Str) (hb : '/' ∉ b) :
    specLastSegment (a ++ '/' :: b) = b := by
  unfold specLastSegment
  have hrev : (a ++ '/' :: b).reverse = b.reverse ++ '/' :: a.reverse := by simp
  rw [hrev, takeWhile_append_stop]
  · simp
  · intro y hy
    have : y ∈ b := List.mem_reverse.mp hy
    simp only [bne_iff_ne, ne_eq]
    intro e
    exact hb (e ▸ this)
  · simp

theorem specLastSegment_of_not_mem (s : Str) (h : '/' ∉ s) : specLastSegment s = s := by
  unfold specLastSegment
  rw [takeWhile_all]
  · simp
  · intro y hy
    have : y ∈ s := List.mem_reverse.mp hy
    simp only [bne_iff_ne, ne_eq]
    intro e
    exact h (e ▸ this)

theorem stringsSplit_ne_nil (s : Str) (sep : Char) : stringsSplit s sep ≠ [] := by
  cases s with
  | nil => simp [stringsSplit]
  | cons c cs =>
    unfold stringsSplit
    split
    · simp
    · split <;> simp

theorem stringsSplit_of_not_mem (s : Str) (sep : Char) (h : sep ∉ s) :
    stringsSplit s sep = [s] := by
  induction s with
  | nil => rfl
  | cons c cs ih =>
    have hc : c ≠ sep := fun e => h (by simp [e])
    have ht : sep ∉ cs := fun e => h (by simp [e])
    unfold stringsSplit
    simp [hc, ih ht]

theorem stringsSplit_cons_sep (cs : Str) (sep : Char) :
    stringsSplit (sep :: cs) sep = [] :: stringsSplit cs sep := by
  rw [stringsSplit]; simp

theorem stringsSplit_cons_ne (c : Char) (cs : Str) (sep : Char) (h : c ≠ sep)
    (p : Str) (ps : List Str) (hs : stringsSplit cs sep = p :: ps) :
    stringsSplit (c :: cs) sep = (c :: p) :: ps := by
  rw [stringsSplit]; simp [h, hs]

theorem stringsSplit_append (a b : Str) (sep : Char) :
    stringsSplit (a ++ sep :: b) sep = stringsSplit a sep ++ stringsSplit b sep := by
  induction a with
  | nil =>
    rw [List.nil_append, stringsSplit_cons_sep]
    rfl
  | cons x xs ih =>
    rw [List.cons_append]
    by_cases hx : x = sep
    · subst hx
      rw [stringsSplit_cons_sep, stringsSplit_cons_sep, ih]
      rfl
    · cases hs : stringsSplit xs sep with
      | nil => exact absurd hs (stringsSplit_ne_nil xs sep)
      | cons p ps =>
        rw [stringsSplit_cons_ne x xs sep hx p ps hs]
        rw [stringsSplit_cons_ne x (xs ++ sep :: b) sep hx p (ps ++ stringsSplit b sep)
          (by rw [ih, hs]; rfl)]
        rfl

/-- The last element of `strings.Split(s, "/")` is the last segment of `s`. -/
theorem stringsSplit_getLast (s : Str) :
    (stringsSplit s '/').getLast? = some (specLastSegment s) := by
  by_cases h : '/' ∈ s
  · obtain ⟨a, b, hab, hb⟩ := exists_last_occurrence s '/' h
    subst hab
    rw [stringsSplit_append, stringsSplit_of_not_mem b '/' hb, specLastSegment_append a b hb]
    simp
  · rw [stringsSplit_of_not_mem s '/' h, specLastSegment_of_not_mem s h]
    simp

/-- The index `len(xs)-1` is in bounds for a non-empty slice and reads its last element. -/
theorem goIndex_last {α : Type} (xs : List α) (h : xs ≠ []) :
    goIndex xs ((xs.length : Int) - 1) = xs.getLast? := by
  have hpos : 0 < xs.length := List.length_pos.mpr h
  unfold goIndex
  have h0 : (0 : Int) ≤ (xs.length : Int) - 1 := by omega
  rw [if_pos h0, List.getLast?_eq_getElem?]
  congr 1
  omega

theorem goIndex_stringsSplit (s : Str) :
    goIndex (stringsSplit s '/') (((stringsSplit s '/').length : Int) - 1)
      = some (specLastSegment s) := by
  rw [goIndex_last _ (stringsSplit_ne_nil s '/'), stringsSplit_getLast]

/-- Cutting at the last `.` leaves the stem. -/
theorem goSliceTo_lastIndex (s : Str) (h : '.' ∈ s) :
    stringsLastIndex s ['.'] ≠ -1 ∧
      goSliceTo s (stringsLastIndex s ['.']) = some (specStem s) := by
  obtain ⟨a, b, hab, hb⟩ := exists_last_occurrence s '.' h
  subst hab
  rw [stringsLastIndex_append a b '.' hb, specStem_append a b hb]
  refine ⟨by omega, ?_⟩
  unfold goSliceTo
  have : (0 : Int) ≤ (a.length : Int) ∧ (a.length : Int) ≤ ((a ++ '.' :: b).length : Int) := by
    simp only [List.length_append, List.length_cons, Nat.cast_add, Nat.cast_one]
    omega
  rw [if_pos this]
  simp

theorem specStem_of_not_mem (s : Str) (h : '.' ∉ s) : specStem s = s := by
  unfold specStem
  rw [if_neg h]

/-! ## Key derivation: what the code computes -/

theorem stringsHasPrefix_dot (ext : Str) :
    (if (!stringsHasPrefix ext ".".toList) = true then ".".toList ++ ext else ext)
      = specHint ext := by
  unfold specHint
  show (if (!stringsHasPrefix ext ['.']) = true then ['.'] ++ ext else ext) = _
  rw [stringsHasPrefix_single]
  by_cases h : ext.head? = some '.'
  · simp [h]
  · simp [h]

theorem dot_toList : ".".toList = ['.'] := rfl

/-- With a URL that parses and a non-empty hint, the key is built from the stem of the
base name and the dotted hint. -/
theorem generateObjectKey_ok_hint (parse : Str → Except GoError URL)
    (originalURL contentType ext predictionUUID : Str) (u : URL)
    (hparse : parse originalURL = .ok u) (hext : ext ≠ []) :
    generateObjectKey parse originalURL contentType ext predictionUUID =
      some ("outputs/".toList ++ predictionUUID ++ "/".toList ++
        (specStem (specBase (specLastSegment u.Path)) ++ specHint ext)) := by
  unfold generateObjectKey
  simp only [hparse, goIndex_stringsSplit, Option.bind_eq_bind, Option.some_bind, bind_pure,
    Option.pure_def]
  rw [if_pos hext]
  simp only [Option.bind_eq_bind, Option.pure_def, bind, stringsHasPrefix_dot]
  unfold specBase
  generalize (if specLastSegment u.Path = [] then "file".toList
    else specLastSegment u.Path) = base
  rw [dot_toList]
  by_cases h : '.' ∈ base
  · obtain ⟨h1, h2⟩ := goSliceTo_lastIndex base h
    rw [if_pos h1, h2]
    rfl
  · have h1 := stringsLastIndex_single_not_mem base '.' h
    rw [h1, specStem_of_not_mem base h]
    simp

/-- With a URL that parses and no hint, a base name with a `.` is kept and any other
base name receives the extension inferred from the content type. -/
theorem generateObjectKey_ok_nohint (parse : Str → Except GoError URL)
    (originalURL contentType predictionUUID : Str) (u : URL)
    (hparse : parse originalURL = .ok u) :
    generateObjectKey parse originalURL contentType [] predictionUUID =
      some ("outputs/".toList ++ predictionUUID ++ "/".toList ++
        (if '.' ∈ specBase (specLastSegment u.Path) then specBase (specLastSegment u.Path)
         else specBase (specLastSegment u.Path) ++ getExtensionFromContentType contentType)) := by
  unfold generateObjectKey
  simp only [hparse, goIndex_stringsSplit, Option.bind_eq_bind, Option.some_bind, bind_pure,
    Option.pure_def]
  unfold specBase
  generalize (if specLastSegment u.Path = [] then "file".toList
    else specLastSegment u.Path) = base
  rw [dot_toList, stringsContains_single]
  simp only [ne_eq, not_true_eq_false, if_false]
  by_cases hd : '.' ∈ base
  · simp only [hd, decide_True, Bool.not_true, if_true]
    rfl
  · simp only [hd, decide_False, Bool.not_false, if_true, if_false]
    by_cases he : getExtensionFromContentType contentType = []
    · simp only [he, not_true_eq_false, if_false, List.append_nil]
    · simp only [he, not_false_eq_true, if_true]

/-- When the URL does not parse, the cut at `?` is within the segment. -/
theorem fallback_filename (segment : Str) :
    ∃ f, (if stringsIndex segment "?".toList ≠ -1
        then goSliceTo segment (stringsIndex segment "?".toList)
        else some segment) = some f := by
  rcases stringsIndex_range segment "?".toList with h | ⟨h1, h2⟩
  · exact ⟨segment, by rw [h]; rfl⟩
  · by_cases hm : stringsIndex segment "?".toList = -1
    · exact ⟨segment, by rw [hm]; rfl⟩
    · refine ⟨segment.take (stringsIndex segment "?".toList).toNat, ?_⟩
      rw [if_pos hm]
      unfold goSliceTo
      rw [if_pos ⟨h1, h2⟩]

/-- From any filename, the cut at the last `.` is within the filename. -/
theorem cut_total (filename : Str) :
    ∃ f, (if stringsLastIndex filename ".".toList ≠ -1
      then goSliceTo filename (stringsLastIndex filename ".".toList)
      else some filename) = some f := by
  rw [dot_toList]
  by_cases h : '.' ∈ filename
  · obtain ⟨h1, h2⟩ := goSliceTo_lastIndex filename h
    exact ⟨_, by rw [if_pos h1, h2]⟩
  · rw [stringsLastIndex_single_not_mem filename '.' h]
    exact ⟨filename, by simp⟩

/-- From any filename the extension step and the final formatting cannot fail. -/
theorem finish_total (y contentType ext predictionUUID : Str) :
    ∃ k,
      (if ext ≠ [] then
        if stringsLastIndex (if y = [] then "file".toList else y) ".".toList ≠ -1 then
          (goSliceTo (if y = [] then "file".toList else y)
              (stringsLastIndex (if y = [] then "file".toList else y) ".".toList)).bind
            fun y =>
              some ("outputs/".toList ++ predictionUUID ++ "/".toList ++
                (y ++ if (!stringsHasPrefix ext ".".toList) = true then ".".toList ++ ext else ext))
        else
          some ("outputs/".toList ++ predictionUUID ++ "/".toList ++
            ((if y = [] then "file".toList else y) ++
              if (!stringsHasPrefix ext ".".toList) = true then ".".toList ++ ext else ext))
      else
        if (!stringsContains (if y = [] then "file".toList else y) ".".toList) = true then
          some ("outputs/".toList ++ predictionUUID ++ "/".toList ++
            if getExtensionFromContentType contentType ≠ [] then
              (if y = [] then "file".toList else y) ++ getExtensionFromContentType contentType
            else if y = [] then "file".toList else y)
        else
          some ("outputs/".toList ++ predictionUUID ++ "/".toList ++
            if y = [] then "file".toList else y)) = some k := by
  generalize (if y = [] then "file".toList else y) = base
  by_cases hext : ext ≠ []
  · rw [if_pos hext]
    obtain ⟨f, hf⟩ := cut_total base
    by_cases hc : stringsLastIndex base ".".toList ≠ -1
    · rw [if_pos hc] at hf ⊢
      rw [hf]
      exact ⟨_, rfl⟩
    · rw [if_neg hc]
      exact ⟨_, rfl⟩
  · rw [if_neg hext]
    split <;> exact ⟨_, rfl⟩

/-- `generateObjectKey` never panics. -/
theorem generateObjectKey_total (parse : Str → Except GoError URL)
    (originalURL contentType ext predictionUUID : Str) :
    ∃ k, generateObjectKey parse originalURL contentType ext predictionUUID = some k := by
  cases hparse : parse originalURL with
  | ok u =>
    by_cases hext : ext = []
    · subst hext
      exact ⟨_, generateObjectKey_ok_nohint parse originalURL contentType predictionUUID u hparse⟩
    · exact ⟨_, generateObjectKey_ok_hint parse originalURL contentType ext predictionUUID u
        hparse hext⟩
  | error e =>
    obtain ⟨f, hf⟩ := fallback_filename (specLastSegment originalURL)
    unfold generateObjectKey
    simp only [hparse, goIndex_stringsSplit, Option.bind_eq_bind, Option.some_bind,
      Option.pure_def]
    by_cases hc : stringsIndex (specLastSegment originalURL) "?".toList ≠ -1
    · rw [if_pos hc] at hf ⊢
      rw [hf, Option.some_bind]
      exact finish_total f contentType ext predictionUUID
    · rw [if_neg hc]
      exact finish_total (specLastSegment originalURL) contentType ext predictionUUID

theorem generateObjectKey_ok (parse : Str → Except GoError URL)
    (originalURL contentType ext predictionUUID : Str) (u : URL)
    (hparse : parse originalURL = .ok u) :
    generateObjectKey parse originalURL contentType ext predictionUUID =
      some ("outputs/".toList ++ predictionUUID ++ "/".toList ++
        specFilename (specBase (specLastSegment u.Path)) ext contentType) := by
  unfold specFilename
  by_cases hext : ext = []
  · subst hext
    rw [generateObjectKey_ok_nohint parse originalURL contentType predictionUUID u hparse]
    simp
  · rw [generateObjectKey_ok_hint parse originalURL contentType ext predictionUUID u hparse hext]
    simp [hext]

theorem getExtension_no_match (contentType : Str)
    (h : ∀ entry ∈ specTable, stringsContains contentType entry.1 = false) :
    getExtensionFromContentType contentType = [] := by
  unfold getExtensionFromContentType
  simp only [specTable, List.mem_cons, List.mem_singleton, forall_eq_or_imp, forall_eq,
    List.not_mem_nil, false_implies, implies_true, and_true] at h
  obtain ⟨h1, h2, h3, h4, h5, h6, h7, h8, h9, h10⟩ := h
  simp only [h1, h2, h3, h4, h5, h6, h7, h8, h9, h10, Bool.false_eq_true, if_false]

/-! ## The transfer pipeline: lemmas -/

theorem dropWhile_rdropWhile_fixed (p : Char → Bool) (t : Str) (ht : t.dropWhile p = t) :
    (t.rdropWhile p).dropWhile p = t.rdropWhile p := by
  obtain ⟨x, hx⟩ := List.rdropWhile_prefix p (l := t)
  cases h : t.rdropWhile p with
  | nil => rfl
  | cons a r =>
    rw [h] at hx
    have hpa : p a = false := by
      have h0 := (List.dropWhile_eq_self_iff (p := p) (l := t)).mp ht
      have hlen : 0 < t.length := by rw [← hx]; simp
      have := h0 hlen
      subst hx
      simpa using this
    simp [List.dropWhile_cons, hpa]

/-- Trimming a trimmed string changes nothing. -/
theorem stringsTrimSpace_idem (s : Str) :
    stringsTrimSpace (stringsTrimSpace s) = stringsTrimSpace s := by
  have e : ∀ t : Str, stringsTrimSpace t = (t.dropWhile unicodeIsSpace).rdropWhile unicodeIsSpace :=
    fun _ => rfl
  rw [e (stringsTrimSpace s), e s]
  rw [dropWhile_rdropWhile_fixed unicodeIsSpace _ (List.dropWhile_idempotent unicodeIsSpace s)]
  exact List.rdropWhile_idempotent _ _

/-- The steps of `download` when the status is not 200. -/
theorem download_not_ok (env : Env) (mediaURL : Str) (u : URL) (resp : Response)
    (hparse : env.parse (stringsTrimSpace mediaURL) = .ok u)
    (hreq : env.newRequest (stringsTrimSpace mediaURL) = none)
    (hdo : env.clientDo (stringsTrimSpace mediaURL) = .ok resp)
    (hstatus : resp.StatusCode ≠ 200) :
    download env mediaURL =
      (.error (.status resp.StatusCode),
        [.download mediaURL, .clientDo (stringsTrimSpace mediaURL), .bodyClose]) := by
  unfold download
  simp only [hparse, hreq, hdo]
  rw [if_pos hstatus]

/-- The steps of `download` when the status is 200. -/
theorem download_ok (env : Env) (mediaURL : Str) (u : URL) (resp : Response)
    (hparse : env.parse (stringsTrimSpace mediaURL) = .ok u)
    (hreq : env.newRequest (stringsTrimSpace mediaURL) = none)
    (hdo : env.clientDo (stringsTrimSpace mediaURL) = .ok resp)
    (hstatus : resp.StatusCode = 200) :
    download env mediaURL =
      (.ok { Reader := .responseBody
             ContentType := if resp.ContentType = [] then "application/octet-stream".toList
                            else resp.ContentType,
             Size := resp.ContentLength },
        [.download mediaURL, .clientDo (stringsTrimSpace mediaURL)]) := by
  unfold download
  simp only [hparse, hreq, hdo]
  rw [if_neg (by simpa using hstatus)]

/-- A successful `download` answers a response with status 200. -/
theorem download_ok_inv (env : Env) (mediaURL : Str) (result : DownloadResult)
    (steps : List Event) (h : download env mediaURL = (.ok result, steps)) :
    ∃ resp, env.clientDo (stringsTrimSpace mediaURL) = .ok resp ∧ resp.StatusCode = 200 ∧
      result.ContentType = (if resp.ContentType = [] then "application/octet-stream".toList
                            else resp.ContentType) ∧
      result.Size = resp.ContentLength ∧
      steps = [.download mediaURL, .clientDo (stringsTrimSpace mediaURL)] := by
  unfold download at h
  cases hparse : env.parse (stringsTrimSpace mediaURL) with
  | error e => simp [hparse] at h
  | ok u =>
    cases hreq : env.newRequest (stringsTrimSpace mediaURL) with
    | some e => simp [hparse, hreq] at h
    | none =>
      cases hdo : env.clientDo (stringsTrimSpace mediaURL) with
      | error e => simp [hparse, hreq, hdo] at h
      | ok resp =>
        simp only [hparse, hreq, hdo] at h
        by_cases hstatus : resp.StatusCode = 200
        · rw [if_neg (by simpa using hstatus)] at h
          simp only [Prod.mk.injEq, Except.ok.injEq] at h
          obtain ⟨h1, h2⟩ := h
          subst h1
          exact ⟨resp, rfl, hstatus, rfl, rfl, h2.symm⟩
        · rw [if_pos hstatus] at h
          simp at h

/-- The steps of `TransferMedia` after a failed download: those of the download. -/
theorem TransferMedia_download_error (env : Env) (mediaURL ext predictionUUID : Str)
    (err : GoError) (steps : List Event)
    (h : download env (stringsTrimSpace mediaURL) = (.error err, steps)) :
    TransferMedia env mediaURL ext predictionUUID =
      (some (.error (.wrap "download failed".toList err)), steps) := by
  unfold TransferMedia
  simp only [h]

theorem ByteStream.close_eq (reader : ByteStream) : reader.close = Event.bodyClose := by
  cases reader
  rfl

/-- The steps of `TransferMedia` after a successful download: the key, the upload, the
closes `PutObject` makes on the reader, and last the deferred close. -/
theorem TransferMedia_download_ok (env : Env) (mediaURL ext predictionUUID : Str)
    (result : DownloadResult) (steps : List Event)
    (h : download env (stringsTrimSpace mediaURL) = (.ok result, steps)) :
    ∃ key,
      generateObjectKey env.parse (stringsTrimSpace mediaURL) result.ContentType ext
        predictionUUID = some key ∧
      (TransferMedia env mediaURL ext predictionUUID).2 =
        steps ++ [.generateObjectKey (stringsTrimSpace mediaURL) result.ContentType ext
            predictionUUID,
          .uploadToOSS key result.ContentType,
          .putObject key result.ContentType env.now] ++
          List.replicate (env.putObjectCloses key result.ContentType) .bodyClose ++
          [.bodyClose] ∧
      (TransferMedia env mediaURL ext predictionUUID).1 =
        match env.putObject key result.ContentType with
        | some err =>
          some (.error (.wrap "upload to OSS failed".toList
            (.wrap "failed to upload file".toList err)))
        | none =>
          some (.ok { ossURL := "https://".toList ++ env.bucket ++ ".".toList ++ env.endpoint ++
                        "/".toList ++ key,
                      size := result.Size, contentType := result.ContentType }) := by
  obtain ⟨key, hkey⟩ := generateObjectKey_total env.parse (stringsTrimSpace mediaURL)
    result.ContentType ext predictionUUID
  refine ⟨key, hkey, ?_, ?_⟩
  · unfold TransferMedia
    simp only [h, hkey]
    unfold uploadToOSS
    cases env.putObject key result.ContentType <;> simp [ByteStream.close_eq]
  · unfold TransferMedia
    simp only [h, hkey]
    unfold uploadToOSS
    cases env.putObject key result.ContentType <;> simp

/-! ## Key derivation: the claims -/

/-- C3: for every non-empty extension hint, identifier and source URL that parses with
path `P`, `generateObjectKey` returns `outputs/` + identifier + `/` + stem + h, where the
base is the last `/`-delimited segment of `P` (`file` if empty), the stem is the base cut
at its last `.`, and h is the hint with a leading `.` added if missing; neither the rest of
the URL (its query string) nor the declared content type changes the key. -/
theorem generateObjectKey_hint_formula (parse : Str → Except GoError URL)
    (originalURL contentType ext predictionUUID : Str) (u : URL)
    (hparse : parse originalURL = .ok u) (hext : ext ≠ []) :
    generateObjectKey parse originalURL contentType ext predictionUUID =
        some ("outputs/".toList ++ predictionUUID ++ "/".toList ++
          (specStem (specBase (specLastSegment u.Path)) ++ specHint ext)) ∧
      ∀ (otherURL otherContentType : Str) (v : URL), parse otherURL = .ok v →
        v.Path = u.Path →
        generateObjectKey parse otherURL otherContentType ext predictionUUID =
          generateObjectKey parse originalURL contentType ext predictionUUID := by
  refine ⟨generateObjectKey_ok_hint parse originalURL contentType ext predictionUUID u
    hparse hext, ?_⟩
  intro otherURL otherContentType v hv hpath
  rw [generateObjectKey_ok_hint parse otherURL otherContentType ext predictionUUID v hv hext,
    generateObjectKey_ok_hint parse originalURL contentType ext predictionUUID u hparse hext,
    hpath]

/-- C3, worked example: hint `png` and a URL ending in `photo.jpg?x=1` give `photo.png`. -/
theorem generateObjectKey_hint_formula_witness :
    sampleParse "https://cdn.example.com/img/photo.jpg?x=1".toList =
        .ok { Scheme := "https".toList, Path := "/img/photo.jpg".toList } ∧
      "png".toList ≠ [] ∧
      generateObjectKey sampleParse "https://cdn.example.com/img/photo.jpg?x=1".toList
        "image/jpeg".toList "png".toList "u1".toList = some "outputs/u1/photo.png".toList :=
  ⟨by decide, by decide,
    (generateObjectKey_hint_formula sampleParse
      "https://cdn.example.com/img/photo.jpg?x=1".toList "image/jpeg".toList "png".toList
      "u1".toList { Scheme := "https".toList, Path := "/img/photo.jpg".toList }
      (by decide) (by decide)).1.trans (by decide)⟩

/-- C4: with an empty hint and a URL that parses with a non-empty last path segment, a
segment containing `.` is the filename whatever the content type, and any other segment
is followed by `getExtensionFromContentType` of the content type, which adds nothing when
no table entry matches. -/
theorem generateObjectKey_nohint_segment (parse : Str → Except GoError URL)
    (originalURL contentType predictionUUID : Str) (u : URL)
    (hparse : parse originalURL = .ok u) (hseg : specLastSegment u.Path ≠ []) :
    ('.' ∈ specLastSegment u.Path →
        generateObjectKey parse originalURL contentType [] predictionUUID =
          some ("outputs/".toList ++ predictionUUID ++ "/".toList ++ specLastSegment u.Path)) ∧
      ('.' ∉ specLastSegment u.Path →
        generateObjectKey parse originalURL contentType [] predictionUUID =
          some ("outputs/".toList ++ predictionUUID ++ "/".toList ++
            (specLastSegment u.Path ++ getExtensionFromContentType contentType))) ∧
      ('.' ∉ specLastSegment u.Path →
        (∀ entry ∈ specTable, stringsContains contentType entry.1 = false) →
        generateObjectKey parse originalURL contentType [] predictionUUID =
          some ("outputs/".toList ++ predictionUUID ++ "/".toList ++ specLastSegment u.Path)) := by
  have hk := generateObjectKey_ok_nohint parse originalURL contentType predictionUUID u hparse
  have hb : specBase (specLastSegment u.Path) = specLastSegment u.Path := by
    unfold specBase
    rw [if_neg hseg]
  rw [hb] at hk
  refine ⟨fun hd => ?_, fun hd => ?_, fun hd hno => ?_⟩
  · rw [hk, if_pos hd]
  · rw [hk, if_neg hd]
  · rw [hk, if_neg hd, getExtension_no_match contentType hno, List.append_nil]

/-- C4, worked example: no hint, a URL ending in `clip` and content type `video/mp4` give
`clip.mp4`. -/
theorem generateObjectKey_nohint_segment_witness :
    sampleParse "https://cdn.example.com/v/clip".toList =
        .ok { Scheme := "https".toList, Path := "/v/clip".toList } ∧
      specLastSegment "/v/clip".toList = "clip".toList ∧
      generateObjectKey sampleParse "https://cdn.example.com/v/clip".toList
        "video/mp4".toList [] "u1".toList = some "outputs/u1/clip.mp4".toList :=
  ⟨by decide, by decide,
    ((generateObjectKey_nohint_segment sampleParse "https://cdn.example.com/v/clip".toList
      "video/mp4".toList "u1".toList { Scheme := "https".toList, Path := "/v/clip".toList }
      (by decide) (by decide)).2.1 (by decide)).trans (by decide)⟩

/-- C5: with an empty hint, a content type that matches no table entry and a URL whose
final `/`-delimited path segment is empty, the key is `outputs/` + identifier + `/file`. -/
theorem generateObjectKey_empty_segment (parse : Str → Except GoError URL)
    (originalURL contentType predictionUUID : Str) (u : URL)
    (hparse : parse originalURL = .ok u) (hseg : specLastSegment u.Path = [])
    (hno : ∀ entry ∈ specTable, stringsContains contentType entry.1 = false) :
    generateObjectKey parse originalURL contentType [] predictionUUID =
      some ("outputs/".toList ++ predictionUUID ++ "/file".toList) := by
  rw [generateObjectKey_ok_nohint parse originalURL contentType predictionUUID u hparse, hseg,
    getExtension_no_match contentType hno]
  simp only [specBase, if_true, List.append_nil]
  have hd : '.' ∉ "file".toList := by decide
  rw [if_neg hd]
  have : "/file".toList = "/".toList ++ "file".toList := by decide
  rw [this, List.append_assoc]

/-- C5, worked example: a path with a trailing slash and an unknown content type. -/
theorem generateObjectKey_empty_segment_witness :
    specLastSegment "/dir/".toList = [] ∧
      generateObjectKey sampleParse "https://cdn.example.com/dir/".toList
        "application/octet-stream".toList [] "u1".toList = some "outputs/u1/file".toList :=
  ⟨by decide,
    (generateObjectKey_empty_segment sampleParse "https://cdn.example.com/dir/".toList
      "application/octet-stream".toList "u1".toList
      { Scheme := "https".toList, Path := "/dir/".toList }
      (by decide) (by decide) (by decide)).trans (by decide)⟩

/-- C6, as stated, fails: the path `/a/b.jpg/` has the non-empty segment `b.jpg`, yet with
an empty hint the filename is `file`, not `b.jpg`. -/
theorem last_nonempty_segment_counterexample :
    sampleParse "https://cdn.example.com/a/b.jpg/".toList =
        .ok { Scheme := "https".toList, Path := "/a/b.jpg/".toList } ∧
      specLastNonEmptySegment "/a/b.jpg/".toList = some "b.jpg".toList ∧
      '.' ∈ "b.jpg".toList ∧
      generateObjectKey sampleParse "https://cdn.example.com/a/b.jpg/".toList
        "application/octet-stream".toList [] "u1".toList = some "outputs/u1/file".toList ∧
      generateObjectKey sampleParse "https://cdn.example.com/a/b.jpg/".toList
        "application/octet-stream".toList [] "u1".toList ≠ some "outputs/u1/b.jpg".toList := by
  refine ⟨by decide, by decide, by decide, by decide, by decide⟩

/-- C6, amended: for every source URL that parses, the filename in the key is derived from
the last `/`-delimited segment of the path, empty or not. With an empty hint and a last
segment that contains `.`, the filename is that segment; whenever the path ends in `/` the
base name is the literal `file`, whatever segments come before. -/
theorem generateObjectKey_last_segment (parse : Str → Except GoError URL)
    (originalURL contentType ext predictionUUID : Str) (u : URL)
    (hparse : parse originalURL = .ok u) :
    generateObjectKey parse originalURL contentType ext predictionUUID =
        some ("outputs/".toList ++ predictionUUID ++ "/".toList ++
          specFilename (specBase (specLastSegment u.Path)) ext contentType) ∧
      (ext = [] → '.' ∈ specLastSegment u.Path →
        generateObjectKey parse originalURL contentType ext predictionUUID =
          some ("outputs/".toList ++ predictionUUID ++ "/".toList ++ specLastSegment u.Path)) ∧
      (∀ p : Str, u.Path = p ++ "/".toList →
        generateObjectKey parse originalURL contentType ext predictionUUID =
          some ("outputs/".toList ++ predictionUUID ++ "/".toList ++
            specFilename "file".toList ext contentType)) := by
  have hk := generateObjectKey_ok parse originalURL contentType ext predictionUUID u hparse
  refine ⟨hk, fun hext hd => ?_, fun p hp => ?_⟩
  · have hne : specLastSegment u.Path ≠ [] := by
      intro e
      rw [e] at hd
      simp at hd
    rw [hk]
    unfold specFilename specBase
    rw [if_neg hne, hext]
    simp [hd]
  · have hs : specLastSegment u.Path = [] := by
      rw [hp]
      exact specLastSegment_append p [] (by simp)
    rw [hk, hs]
    rfl

/-- C6 amended, worked example: the path `/a/b.jpg/` gives the filename `file`. -/
theorem generateObjectKey_last_segment_witness :
    sampleParse "https://cdn.example.com/a/b.jpg/".toList =
        .ok { Scheme := "https".toList, Path := "/a/b.jpg/".toList } ∧
      generateObjectKey sampleParse "https://cdn.example.com/a/b.jpg/".toList
        "application/octet-stream".toList [] "u1".toList = some "outputs/u1/file".toList :=
  ⟨by decide,
    ((generateObjectKey_last_segment sampleParse "https://cdn.example.com/a/b.jpg/".toList
      "application/octet-stream".toList [] "u1".toList
      { Scheme := "https".toList, Path := "/a/b.jpg/".toList } (by decide)).2.2
      "/a/b.jpg".toList (by decide)).trans (by decide)⟩

/-- C7: `generateObjectKey` is pure and total. For every parser outcome and every four
strings it returns a key; the index `len(parts)-1` into a split on `/` is in bounds; the
cuts `filename[:idx]` at a found `?` and at a found `.` are within range; and two calls
with the same arguments return the same key. -/
theorem generateObjectKey_pure_total (parse : Str → Except GoError URL)
    (originalURL contentType ext predictionUUID : Str) :
    (∃ k, generateObjectKey parse originalURL contentType ext predictionUUID = some k) ∧
      (∀ s : Str, ∃ seg,
        goIndex (stringsSplit s '/') (((stringsSplit s '/').length : Int) - 1) = some seg) ∧
      (∀ filename : Str, stringsIndex filename "?".toList ≠ -1 →
        ∃ t, goSliceTo filename (stringsIndex filename "?".toList) = some t) ∧
      (∀ filename : Str, stringsLastIndex filename ".".toList ≠ -1 →
        ∃ t, goSliceTo filename (stringsLastIndex filename ".".toList) = some t) ∧
      (∀ k₁ k₂ : Option Str,
        generateObjectKey parse originalURL contentType ext predictionUUID = k₁ →
        generateObjectKey parse originalURL contentType ext predictionUUID = k₂ → k₁ = k₂) := by
  refine ⟨generateObjectKey_total parse originalURL contentType ext predictionUUID,
    fun s => ⟨_, goIndex_stringsSplit s⟩, fun filename h => ?_, fun filename h => ?_,
    fun k₁ k₂ h₁ h₂ => h₁.symm.trans h₂⟩
  · obtain ⟨f, hf⟩ := fallback_filename filename
    rw [if_pos h] at hf
    exact ⟨f, hf⟩
  · obtain ⟨f, hf⟩ := cut_total filename
    rw [if_pos h] at hf
    exact ⟨f, hf⟩

/-- C10: `getExtensionFromContentType` implements the lookup table: on each of the ten
listed content types it returns the listed extension, and on every string that contains
none of the ten it returns the empty string. -/
theorem getExtensionFromContentType_table :
    (∀ entry ∈ specTable, getExtensionFromContentType entry.1 = entry.2) ∧
      (∀ contentType : Str,
        (∀ entry ∈ specTable, stringsContains contentType entry.1 = false) →
        getExtensionFromContentType contentType = []) :=
  ⟨by decide, getExtension_no_match⟩

/-- C10, worked example: `text/plain` contains none of the ten types and maps to nothing. -/
theorem getExtensionFromContentType_table_witness :
    (∀ entry ∈ specTable, stringsContains "text/plain".toList entry.1 = false) ∧
      getExtensionFromContentType "text/plain".toList = [] :=
  ⟨by decide, getExtensionFromContentType_table.2 "text/plain".toList (by decide)⟩

/-! ## The transfer pipeline: the claims -/

/-- C1: when the trimmed source URL parses with a scheme that is neither `http` nor
`https`, the handler answers a bad-request reply and the service is never entered: no
`download`, no outbound request, no `uploadToOSS`. -/
theorem controller_rejects_scheme (env : Env) (req : MediaTransferRequest) (u : URL)
    (hparse : env.parse (stringsTrimSpace req.URL) = .ok u)
    (hscheme : u.Scheme ≠ "http".toList ∧ u.Scheme ≠ "https".toList) :
    ∃ message detail,
      controllerTransferMedia env (.ok req) = (some (.fail 400 message detail), []) := by
  unfold controllerTransferMedia
  simp only []
  by_cases h1 : stringsTrimSpace req.URL = []
  · rw [if_pos h1]
    exact ⟨_, _, rfl⟩
  · rw [if_neg h1]
    by_cases h2 : req.PredictionUUID = []
    · rw [if_pos h2]
      exact ⟨_, _, rfl⟩
    · rw [if_neg h2]
      simp only [hparse]
      rw [if_pos hscheme]
      exact ⟨_, _, rfl⟩

/-- C1, worked example: an `ftp` URL is refused with status 400 and an empty trace. -/
theorem controller_rejects_scheme_witness :
    sampleParse (stringsTrimSpace " ftp://files.example.com/a.bin ".toList) =
        .ok { Scheme := "ftp".toList, Path := "/a.bin".toList } ∧
      ∃ message detail,
        controllerTransferMedia
          (sampleEnv { StatusCode := 200, ContentType := [], ContentLength := 3 } none)
          (.ok { URL := " ftp://files.example.com/a.bin ".toList, Ext := "bin".toList,
                 PredictionUUID := "u1".toList }) = (some (.fail 400 message detail), []) :=
  ⟨by decide,
    controller_rejects_scheme
      (sampleEnv { StatusCode := 200, ContentType := [], ContentLength := 3 } none)
      { URL := " ftp://files.example.com/a.bin ".toList, Ext := "bin".toList,
        PredictionUUID := "u1".toList }
      { Scheme := "ftp".toList, Path := "/a.bin".toList } (by decide) (by decide)⟩

/-- C2: for every response whose status code is not exactly 200, `download` closes the
body and then returns the status error, and `TransferMedia` returns that error wrapped as
a download failure with no call of `generateObjectKey` or `uploadToOSS` and no storage
write. -/
theorem download_rejects_non_200 (env : Env) (mediaURL ext predictionUUID : Str) (u : URL)
    (resp : Response)
    (hparse : env.parse (stringsTrimSpace mediaURL) = .ok u)
    (hreq : env.newRequest (stringsTrimSpace mediaURL) = none)
    (hdo : env.clientDo (stringsTrimSpace mediaURL) = .ok resp)
    (hstatus : resp.StatusCode ≠ 200) :
    download env mediaURL =
        (.error (.status resp.StatusCode),
          [.download mediaURL, .clientDo (stringsTrimSpace mediaURL), .bodyClose]) ∧
      TransferMedia env mediaURL ext predictionUUID =
        (some (.error (.wrap "download failed".toList (.status resp.StatusCode))),
          [.download (stringsTrimSpace mediaURL), .clientDo (stringsTrimSpace mediaURL),
            .bodyClose]) ∧
      ∀ e ∈ (TransferMedia env mediaURL ext predictionUUID).2,
        (∀ a b c d, e ≠ .generateObjectKey a b c d) ∧ (∀ k c, e ≠ .uploadToOSS k c) ∧
          (∀ k c t, e ≠ .putObject k c t) := by
  have hd := download_not_ok env mediaURL u resp hparse hreq hdo hstatus
  have hi := stringsTrimSpace_idem mediaURL
  have hd' := download_not_ok env (stringsTrimSpace mediaURL) u resp
    (by rw [hi]; exact hparse) (by rw [hi]; exact hreq) (by rw [hi]; exact hdo) hstatus
  rw [hi] at hd'
  have ht := TransferMedia_download_error env mediaURL ext predictionUUID _ _ hd'
  refine ⟨hd, ht, ?_⟩
  intro e he
  rw [ht] at he
  simp only [List.mem_cons, List.mem_singleton, List.not_mem_nil, or_false] at he
  rcases he with rfl | rfl | rfl <;> simp

/-- C2, worked example: a 404 answer gives a wrapped download error and three steps, the
last of which closes the body. -/
theorem download_rejects_non_200_witness :
    TransferMedia (sampleEnv { StatusCode := 404, ContentType := [], ContentLength := 0 } none)
        "https://cdn.example.com/v/clip".toList "mp4".toList "u1".toList =
      (some (.error (.wrap "download failed".toList (.status 404))),
        [.download "https://cdn.example.com/v/clip".toList,
          .clientDo "https://cdn.example.com/v/clip".toList, .bodyClose]) :=
  (download_rejects_non_200
    (sampleEnv { StatusCode := 404, ContentType := [], ContentLength := 0 } none)
    "https://cdn.example.com/v/clip".toList "mp4".toList "u1".toList
    { Scheme := "https".toList, Path := "/v/clip".toList }
    { StatusCode := 404, ContentType := [], ContentLength := 0 }
    (by decide) (by decide) (by decide) (by decide)).2.1.trans (by decide)

/-- C8: when `TransferMedia` succeeds, the content type it returns is the response's
`Content-Type` header if that is non-empty and `application/octet-stream` otherwise, and
the same value is the one passed to `generateObjectKey` and to `uploadToOSS`. -/
theorem TransferMedia_contentType (env : Env) (mediaURL ext predictionUUID : Str)
    (r : TransferResult)
    (hok : (TransferMedia env mediaURL ext predictionUUID).1 = some (.ok r)) :
    ∃ resp key,
      env.clientDo (stringsTrimSpace mediaURL) = .ok resp ∧ resp.StatusCode = 200 ∧
      r.contentType = (if resp.ContentType = [] then "application/octet-stream".toList
                       else resp.ContentType) ∧
      (TransferMedia env mediaURL ext predictionUUID).2 =
        [.download (stringsTrimSpace mediaURL), .clientDo (stringsTrimSpace mediaURL),
          .generateObjectKey (stringsTrimSpace mediaURL) r.contentType ext predictionUUID,
          .uploadToOSS key r.contentType, .putObject key r.contentType env.now] ++
          List.replicate (env.putObjectCloses key r.contentType) .bodyClose ++
          [.bodyClose] := by
  have hi := stringsTrimSpace_idem mediaURL
  cases hd : download env (stringsTrimSpace mediaURL) with
  | mk res steps =>
    cases res with
    | error err =>
      rw [TransferMedia_download_error env mediaURL ext predictionUUID err steps hd] at hok
      simp at hok
    | ok result =>
      obtain ⟨resp, h1, h2, h3, _, h5⟩ := download_ok_inv env _ result steps hd
      rw [hi] at h1 h5
      obtain ⟨key, _, htrace, hres⟩ :=
        TransferMedia_download_ok env mediaURL ext predictionUUID result steps hd
      rw [hres] at hok
      have hct : r.contentType = result.ContentType := by
        cases hput : env.putObject key result.ContentType with
        | some e => simp [hput] at hok
        | none =>
          simp only [hput, Option.some.injEq, Except.ok.injEq] at hok
          rw [← hok]
      refine ⟨resp, key, h1, h2, by rw [hct, h3], ?_⟩
      rw [htrace, h5, hct]
      rfl

/-- C8, worked example: a 200 answer without a `Content-Type` header is published as
`application/octet-stream`. -/
theorem TransferMedia_contentType_witness :
    (TransferMedia (sampleEnv { StatusCode := 200, ContentType := [], ContentLength := 3 } none)
        "https://cdn.example.com/v/clip".toList "mp4".toList "u1".toList).1 =
        some (.ok { ossURL := "https://media.oss.example.com/outputs/u1/clip.mp4".toList,
                    size := 3, contentType := "application/octet-stream".toList }) ∧
      ∃ resp key,
        (sampleEnv { StatusCode := 200, ContentType := [], ContentLength := 3 } none).clientDo
            (stringsTrimSpace "https://cdn.example.com/v/clip".toList) = .ok resp ∧
          resp.StatusCode = 200 ∧
          "application/octet-stream".toList =
            (if resp.ContentType = [] then "application/octet-stream".toList
             else resp.ContentType) ∧
          (TransferMedia
              (sampleEnv { StatusCode := 200, ContentType := [], ContentLength := 3 } none)
              "https://cdn.example.com/v/clip".toList "mp4".toList "u1".toList).2 =
            [.download (stringsTrimSpace "https://cdn.example.com/v/clip".toList),
              .clientDo (stringsTrimSpace "https://cdn.example.com/v/clip".toList),
              .generateObjectKey (stringsTrimSpace "https://cdn.example.com/v/clip".toList)
                "application/octet-stream".toList "mp4".toList "u1".toList,
              .uploadToOSS key "application/octet-stream".toList,
              .putObject key "application/octet-stream".toList
                (sampleEnv { StatusCode := 200, ContentType := [], ContentLength := 3 }
                  none).now] ++
              List.replicate
                ((sampleEnv { StatusCode := 200, ContentType := [], ContentLength := 3 }
                  none).putObjectCloses key "application/octet-stream".toList) .bodyClose ++
              [.bodyClose] :=
  ⟨by decide,
    TransferMedia_contentType
      (sampleEnv { StatusCode := 200, ContentType := [], ContentLength := 3 } none)
      "https://cdn.example.com/v/clip".toList "mp4".toList "u1".toList
      { ossURL := "https://media.oss.example.com/outputs/u1/clip.mp4".toList,
        size := 3, contentType := "application/octet-stream".toList } (by decide)⟩

/-- C9, as stated, fails: after a 200 answer `PutObject` is handed the response body and
closes it, and the deferred `Close` of `TransferMedia` then closes it again. The stream
is closed twice, whether the storage write succeeds or fails. -/
theorem TransferMedia_closes_twice_counterexample :
    (TransferMedia
        (sampleEnv { StatusCode := 200, ContentType := "video/mp4".toList, ContentLength := 3 }
          none)
        "https://cdn.example.com/v/clip".toList "mp4".toList "u1".toList).1 =
        some (.ok { ossURL := "https://media.oss.example.com/outputs/u1/clip.mp4".toList,
                    size := 3, contentType := "video/mp4".toList }) ∧
      (TransferMedia
        (sampleEnv { StatusCode := 200, ContentType := "video/mp4".toList, ContentLength := 3 }
          none)
        "https://cdn.example.com/v/clip".toList "mp4".toList "u1".toList).2 =
        [.download "https://cdn.example.com/v/clip".toList,
          .clientDo "https://cdn.example.com/v/clip".toList,
          .generateObjectKey "https://cdn.example.com/v/clip".toList "video/mp4".toList
            "mp4".toList "u1".toList,
          .uploadToOSS "outputs/u1/clip.mp4".toList "video/mp4".toList,
          .putObject "outputs/u1/clip.mp4".toList "video/mp4".toList
            "2024-01-01T00:00:00Z".toList,
          .bodyClose, .bodyClose] ∧
      (TransferMedia
        (sampleEnv { StatusCode := 200, ContentType := "video/mp4".toList, ContentLength := 3 }
          none)
        "https://cdn.example.com/v/clip".toList "mp4".toList "u1".toList).2.count
          .bodyClose = 2 ∧
      (TransferMedia
        (sampleEnv { StatusCode := 200, ContentType := "video/mp4".toList, ContentLength := 3 }
          (some (.lib "bucket missing".toList)))
        "https://cdn.example.com/v/clip".toList "mp4".toList "u1".toList).2.count
          .bodyClose = 2 ∧
      ¬ (TransferMedia
        (sampleEnv { StatusCode := 200, ContentType := "video/mp4".toList, ContentLength := 3 }
          none)
        "https://cdn.example.com/v/clip".toList "mp4".toList "u1".toList).2.count
          .bodyClose = 1 := by
  refine ⟨by decide, by decide, by decide, by decide, by decide⟩

/-- C9, amended: whenever a response is obtained, the body is closed at least once by the
time `TransferMedia` returns, and the service's own code closes it exactly once on every
path. With a status other than 200 the one close is made by `download`, `TransferMedia`
adds no step and the stream is closed exactly once. With status 200 `download` does not
close; `TransferMedia` closes once, as its last step after `uploadToOSS` has returned,
whether the storage write succeeds or fails, and the closes `PutObject` makes on the
reader it is handed come before it: the stream is closed one time more than `PutObject`
closes it. -/
theorem TransferMedia_own_close_once (env : Env) (mediaURL ext predictionUUID : Str)
    (u : URL) (resp : Response)
    (hparse : env.parse (stringsTrimSpace mediaURL) = .ok u)
    (hreq : env.newRequest (stringsTrimSpace mediaURL) = none)
    (hdo : env.clientDo (stringsTrimSpace mediaURL) = .ok resp) :
    1 ≤ (TransferMedia env mediaURL ext predictionUUID).2.count .bodyClose ∧
      (resp.StatusCode ≠ 200 →
        (download env (stringsTrimSpace mediaURL)).2.count .bodyClose = 1 ∧
          (TransferMedia env mediaURL ext predictionUUID).2 =
            (download env (stringsTrimSpace mediaURL)).2 ∧
          (TransferMedia env mediaURL ext predictionUUID).2.count .bodyClose = 1) ∧
      (resp.StatusCode = 200 →
        (download env (stringsTrimSpace mediaURL)).2.count .bodyClose = 0 ∧
          ∃ key contentType,
            (TransferMedia env mediaURL ext predictionUUID).2 =
              (download env (stringsTrimSpace mediaURL)).2 ++
                [.generateObjectKey (stringsTrimSpace mediaURL) contentType ext predictionUUID,
                  .uploadToOSS key contentType, .putObject key contentType env.now] ++
                List.replicate (env.putObjectCloses key contentType) .bodyClose ++
                [.bodyClose] ∧
            (TransferMedia env mediaURL ext predictionUUID).2.count .bodyClose =
              env.putObjectCloses key contentType + 1) := by
  have hi := stringsTrimSpace_idem mediaURL
  by_cases hstatus : resp.StatusCode = 200
  · have hd := download_ok env (stringsTrimSpace mediaURL) u resp
      (by rw [hi]; exact hparse) (by rw [hi]; exact hreq) (by rw [hi]; exact hdo) hstatus
    obtain ⟨key, _, htrace, _⟩ :=
      TransferMedia_download_ok env mediaURL ext predictionUUID _ _ hd
    have hcount : (TransferMedia env mediaURL ext predictionUUID).2.count .bodyClose =
        env.putObjectCloses key
          (if resp.ContentType = [] then "application/octet-stream".toList
           else resp.ContentType) + 1 := by
      rw [htrace]
      simp [List.count_cons, List.count_replicate]
    refine ⟨by rw [hcount]; omega, fun hne => absurd hstatus hne, fun _ => ⟨?_, key,
      (if resp.ContentType = [] then "application/octet-stream".toList else resp.ContentType),
      ?_, hcount⟩⟩
    · rw [hd]
      simp [List.count_cons]
    · rw [htrace, hd]
  · have hd := download_not_ok env (stringsTrimSpace mediaURL) u resp
      (by rw [hi]; exact hparse) (by rw [hi]; exact hreq) (by rw [hi]; exact hdo) hstatus
    have ht := TransferMedia_download_error env mediaURL ext predictionUUID _ _ hd
    have hcount : (TransferMedia env mediaURL ext predictionUUID).2.count .bodyClose = 1 := by
      rw [ht]
      simp [List.count_cons]
    refine ⟨by rw [hcount], fun _ => ⟨?_, ?_, hcount⟩, fun he => absurd he hstatus⟩
    · rw [hd]
      simp [List.count_cons]
    · rw [ht, hd]

/-- C9 amended, worked example: a 404 answer is closed exactly once, by `download`. -/
theorem TransferMedia_own_close_once_witness :
    (download
        (sampleEnv { StatusCode := 404, ContentType := [], ContentLength := 0 } none)
        (stringsTrimSpace "https://cdn.example.com/v/clip".toList)).2.count .bodyClose = 1 ∧
      (TransferMedia
        (sampleEnv { StatusCode := 404, ContentType := [], ContentLength := 0 } none)
        "https://cdn.example.com/v/clip".toList "mp4".toList "u1".toList).2.count
          .bodyClose = 1 :=
  have h := (TransferMedia_own_close_once
    (sampleEnv { StatusCode := 404, ContentType := [], ContentLength := 0 } none)
    "https://cdn.example.com/v/clip".toList "mp4".toList "u1".toList
    { Scheme := "https".toList, Path := "/v/clip".toList }
    { StatusCode := 404, ContentType := [], ContentLength := 0 }
    (by decide) (by decide) (by decide)).2.1 (by decide)
  ⟨h.1, h.2.2⟩

end Transfer
